import Mathlib

/-!
Shallow embedding of the GNU jobserver client implemented in
src/jobserver-posix.cc (struct Jobserver of src/jobserver.h).

The mutable fields of `struct Jobserver` become the record `JState`.
Each member function becomes a pure Lean function from a `JState`
(plus the results the OS would hand back for the syscalls the function
performs, passed in as explicit oracle arguments) to the new state, the
C return value, and a record `FX` counting the syscalls and diagnostics
the function performed.  `Fatal(...)` aborts the process: it is modelled
by an `alive = false` / `none` component in the result.
-/

/-- Linux errno value for EAGAIN. -/
def EAGAIN : Int := 11

/-- Linux errno value for EWOULDBLOCK (identical to EAGAIN on Linux). -/
def EWOULDBLOCK : Int := 11

/-- Linux errno value for EBADF, returned by read/write on an invalid fd. -/
def EBADF : Int := 9

/-- The mutable state of `struct Jobserver` (src/jobserver.h lines 80-105):
`token_count_`, `jobserver_closed_`, `jobserver_fifo_`, `rfd_`, `wfd_`.
(`jobserver_name_` is only used for diagnostics text and is not tracked.) -/
structure JState where
  token_count : Int
  jobserver_closed : Bool
  jobserver_fifo : Bool
  rfd : Int
  wfd : Int
deriving DecidableEq, Repr

/-- The default-initialized field values of `struct Jobserver`. -/
def initJState : JState :=
  { token_count := 0, jobserver_closed := false, jobserver_fifo := false,
    rfd := -1, wfd := -1 }

/-- Counts of the observable effects a member function performed:
read(2) calls, write(2) calls, and Warning(...) diagnostics. -/
structure FX where
  reads : Nat
  writes : Nat
  warns : Nat
deriving DecidableEq, Repr

/-- No effects. -/
def FX.zero : FX := { reads := 0, writes := 0, warns := 0 }

/-- Componentwise sum of effect counts. -/
def FX.add (a b : FX) : FX :=
  { reads := a.reads + b.reads, writes := a.writes + b.writes,
    warns := a.warns + b.warns }

/-- Embeds `Jobserver::Enabled` (jobserver-posix.cc line 111): both fds valid. -/
def enabled (s : JState) : Bool :=
  decide (s.rfd ≥ 0 ∧ s.wfd ≥ 0)

/-- Embeds `Jobserver::Acquire` (jobserver-posix.cc lines 115-137).
`ret` and `errno` are the value returned by the non-blocking
`read(rfd_, &token, 1)` and the errno it set; they are consulted only if
that read is actually reached.  Result: `some (state, returned bool)`
for a normal return, `none` when `Fatal` aborted the process, paired
with the effect counts. -/
def acquire (s : JState) (ret errno : Int) : Option (JState × Bool) × FX :=
  if s.token_count ≤ 0 ∨ s.jobserver_closed = true then
    (some ({ s with token_count := 1 }, true), FX.zero)
  else
    if ret < 0 ∧ errno ≠ EAGAIN ∧ errno ≠ EWOULDBLOCK then
      if s.jobserver_fifo = true then
        (none, { reads := 1, writes := 0, warns := 0 })
      else
        (some ({ s with jobserver_closed := true }, false),
         { reads := 1, writes := 0, warns := 1 })
    else if ret > 0 then
      (some ({ s with token_count := s.token_count + 1 }, true),
       { reads := 1, writes := 0, warns := 0 })
    else
      (some (s, false), { reads := 1, writes := 0, warns := 0 })

/-- Embeds `Jobserver::Release` (jobserver-posix.cc lines 139-155), written as
the case chain the two sequential count adjustments amount to: when
`token_count_ < 0` the first `if` resets it to `0`, so the second `if`
(`> 0`) is skipped and the `== 0` early return fires with no write;
when `token_count_ = 0` both adjustments are skipped and the early
return fires; otherwise the count is decremented and the early-return
test `token_count_ == 0 || jobserver_closed_` is evaluated on the
decremented count.  `wret` is the value returned by
`write(wfd_, &token, 1)`, consulted only if that write is reached.
The `Bool` is `false` when `Fatal` aborted the process. -/
def release (s : JState) (wret : Int) : JState × Bool × FX :=
  if s.token_count < 0 then
    ({ s with token_count := 0 }, true, FX.zero)
  else if s.token_count = 0 then
    (s, true, FX.zero)
  else if s.token_count - 1 = 0 ∨ s.jobserver_closed = true then
    ({ s with token_count := s.token_count - 1 }, true, FX.zero)
  else if wret = 1 then
    ({ s with token_count := s.token_count - 1 }, true,
     { reads := 0, writes := 1, warns := 0 })
  else
    ({ s with token_count := s.token_count - 1 }, false,
     { reads := 0, writes := 1, warns := 0 })

/-- Result of `Jobserver::Clear`: final state, whether the process is
still alive (no `Fatal`), accumulated effects, and the number of
`Release()` iterations the `while` loop performed. -/
structure ClearOut where
  state : JState
  alive : Bool
  fx : FX
  iters : Nat
deriving DecidableEq, Repr

/-- Fuel-indexed body of the loop `while (token_count_) Release();`
(jobserver-posix.cc lines 157-160).  `w i` is the result of the write
performed by the `i`-th `Release()` call, if any.  The fuel only bounds
the recursion; `clear` below supplies fuel that is provably sufficient
(each iteration strictly decreases `token_count_.natAbs`), and
`clear_eq` proves the exact while-loop unfolding. -/
def clearFuel : Nat → JState → (Nat → Int) → ClearOut
  | 0, s, _ => { state := s, alive := true, fx := FX.zero, iters := 0 }
  | fuel + 1, s, w =>
    if s.token_count = 0 then
      { state := s, alive := true, fx := FX.zero, iters := 0 }
    else
      let r := release s (w 0)
      if r.2.1 = true then
        let c := clearFuel fuel r.1 (fun k => w (k + 1))
        { state := c.state, alive := c.alive, fx := r.2.2.add c.fx,
          iters := c.iters + 1 }
      else
        { state := r.1, alive := false, fx := r.2.2, iters := 1 }

/-- Embeds `Jobserver::Clear` (jobserver-posix.cc lines 157-160). -/
def clear (s : JState) (w : Nat → Int) : ClearOut :=
  clearFuel s.token_count.natAbs s w

/-- One scheduler-visible operation on the client, carrying the oracle
results of the syscalls it may perform. -/
inductive Op
  | acq (ret errno : Int)
  | rel (wret : Int)
  | clr (w : Nat → Int)

/-- Execute one operation: new state, alive flag, effects. -/
def step (s : JState) : Op → JState × Bool × FX
  | .acq ret errno =>
    match acquire s ret errno with
    | (some (s', _), fx) => (s', true, fx)
    | (none, fx) => (s, false, fx)
  | .rel wret => release s wret
  | .clr w =>
    let c := clear s w
    (c.state, c.alive, c.fx)

/-- Execute a finite sequence of operations, stopping at a `Fatal`. -/
def runOps (s : JState) : List Op → JState × Bool × FX
  | [] => (s, true, FX.zero)
  | op :: ops =>
    let r := step s op
    if r.2.1 = true then
      let r2 := runOps r.1 ops
      (r2.1, r2.2.1, r.2.2.add r2.2.2)
    else
      (r.1, false, r.2.2)

/-- Runs `n` consecutive `Acquire()` calls in a state where every read that
happens returns one byte; the `Bool` is `true` iff every call succeeded. -/
def runAcquires (s : JState) : Nat → JState × Bool
  | 0 => (s, true)
  | n + 1 =>
    match acquire s 1 0 with
    | (some (s', ok), _) =>
      let p := runAcquires s' n
      (p.1, ok && p.2)
    | (none, _) => (s, false)

/-- C isblank in the default locale: space or horizontal tab
(jobserver-posix.cc line 40). -/
def isblankB (c : Char) : Bool := c = ' ' || c = '\t'

/-- C isspace in the default locale (skipped by a `%d` conversion). -/
def isspaceB (c : Char) : Bool :=
  c = ' ' || c = '\t' || c = '\n' || c = Char.ofNat 11 || c = Char.ofNat 12 || c = '\r'

/-- Accumulating form of the tokenizer loop of jobserver-posix.cc lines
37-50: collect maximal runs of non-blank characters, dropping empty
words.  `acc` holds the current word reversed. -/
def tokAux : List Char → List Char → List (List Char)
  | [], acc => if acc = [] then [] else [acc.reverse]
  | c :: cs, acc =>
    if isblankB c then
      if acc = [] then tokAux cs [] else acc.reverse :: tokAux cs []
    else
      tokAux cs (c :: acc)

/-- Tokenize the MAKEFLAGS string into blank-separated words. -/
def tokenize (cs : List Char) : List (List Char) := tokAux cs []

/-- The literal AUTH_KEY of jobserver.h. -/
def AUTH_KEY : List Char := "--jobserver-auth=".toList

/-- The literal FDS_KEY of jobserver.h. -/
def FDS_KEY : List Char := "--jobserver-fds=".toList

/-- The literal FIFO_KEY of jobserver.h. -/
def FIFO_KEY : List Char := "fifo:".toList

/-- Embeds `word.find(key) == 0`: the word begins with the key. -/
def startsWith : List Char → List Char → Bool
  | [], _ => true
  | _ :: _, [] => false
  | a :: as, b :: bs => a = b && startsWith as bs

/-- One scan loop of jobserver-posix.cc lines 52-61: every matching word
overwrites `flag_`, so the value of the last word starting with `key`
wins (empty result if no word matches). -/
def lastFlagValue (key : List Char) (ws : List (List Char)) : List Char :=
  ws.foldl (fun acc w => if startsWith key w then w.drop key.length else acc) []

/-- Both scan loops combined (lines 52-61): `--jobserver-fds=` is
consulted only when the `--jobserver-auth=` scan left `flag_` empty. -/
def selectFlagValue (ws : List (List Char)) : List Char :=
  let a := lastFlagValue AUTH_KEY ws
  if a = [] then lastFlagValue FDS_KEY ws else a

/-- Decimal value of a digit run (enough for the claims; C's `%d`
overflow behavior on out-of-int values is undefined and not modelled). -/
def digitsToNat (ds : List Char) : Nat :=
  ds.foldl (fun a c => 10 * a + (c.toNat - 48)) 0

/-- Digit-run step of a `%d` conversion: at least one decimal digit,
consuming the maximal digit run. -/
def scanUInt (cs : List Char) : Option (Nat × List Char) :=
  if cs.takeWhile Char.isDigit = [] then none
  else some (digitsToNat (cs.takeWhile Char.isDigit), cs.dropWhile Char.isDigit)

/-- A full `%d` conversion: skip whitespace, optional single sign, then
a nonempty digit run.  Returns the value and the unconsumed suffix. -/
def scanInt (cs : List Char) : Option (Int × List Char) :=
  match cs.dropWhile isspaceB with
  | [] => none
  | c :: rest =>
    if c = '-' then (scanUInt rest).map (fun p => (-(p.1 : Int), p.2))
    else if c = '+' then (scanUInt rest).map (fun p => ((p.1 : Int), p.2))
    else (scanUInt (c :: rest)).map (fun p => ((p.1 : Int), p.2))

/-- How many of the two `%d` fields were assigned, and their values. -/
inductive ScanResult
  | zero
  | one (r : Int)
  | two (r w : Int)
deriving DecidableEq, Repr

/-- Embeds `sscanf(value, "%d,%d", &rfd_, &wfd_)` (jobserver-posix.cc line 75):
first `%d`; then the literal `,` must match the very next character;
then the second `%d`.  Assignments already made are kept on failure
(`one r` leaves `rfd_ = r` behind), and trailing unconsumed characters
after the second integer do not affect the result. -/
def sscanf_dd (cs : List Char) : ScanResult :=
  match scanInt cs with
  | none => .zero
  | some (r, rest) =>
    match rest with
    | [] => .one r
    | c :: rest2 =>
      if c = ',' then
        match scanInt rest2 with
        | none => .one r
        | some (w, _) => .two r w
      else .one r

/-- Outcome of running the constructor: resulting fields, the values
named in Warning diagnostics, the number of Info diagnostics, and
whether `Fatal` aborted the process. -/
structure CtorOut where
  state : JState
  warnings : List (List Char)
  infos : Nat
  fatal : Bool
deriving DecidableEq, Repr

/-- The branch chain of jobserver-posix.cc lines 86-97, run once `rfd_`
and `wfd_` are set: both valid → Info and `token_count_ = -1`; either
exactly `-1` → Fatal; otherwise (an invalid fd other than `-1`) →
`jobserver_closed_ = true` and `token_count_ = -1`. -/
def finishInit (s : JState) : CtorOut :=
  if s.rfd ≥ 0 ∧ s.wfd ≥ 0 then
    { state := { s with token_count := -1 }, warnings := [], infos := 1,
      fatal := false }
  else if s.rfd = -1 ∨ s.wfd = -1 then
    { state := s, warnings := [], infos := 0, fatal := true }
  else
    { state := { s with jobserver_closed := true, token_count := -1 },
      warnings := [], infos := 0, fatal := false }

/-- jobserver-posix.cc lines 67-97 for a nonempty flag value `v`:
check the `fifo:` prefix; otherwise run `sscanf` and warn-and-return on
a result other than 2 (keeping any partial assignment to `rfd_`); for a
fifo the two `open(2)` results `openR`/`openW` become the handles. -/
def handleValue (v : List Char) (openR openW : Int) : CtorOut :=
  if startsWith FIFO_KEY v = true then
    finishInit { initJState with jobserver_fifo := true, rfd := openR, wfd := openW }
  else
    match sscanf_dd v with
    | .two r w => finishInit { initJState with rfd := r, wfd := w }
    | .one r => { state := { initJState with rfd := r }, warnings := [v],
                  infos := 0, fatal := false }
    | .zero => { state := initJState, warnings := [v], infos := 0,
                 fatal := false }

/-- The silent fully-disabled outcome of the constructor. -/
def disabledOut : CtorOut :=
  { state := initJState, warnings := [], infos := 0, fatal := false }

/-- Embeds `Jobserver::Jobserver` (jobserver-posix.cc lines 25-97).
`makeflags` is the MAKEFLAGS environment value (`none` when unset);
`openR`/`openW` are the oracle results of the two `open(2)` calls,
consulted only on the fifo path. -/
def ctor (makeflags : Option (List Char)) (openR openW : Int) : CtorOut :=
  match makeflags with
  | none => disabledOut
  | some cs =>
    if cs = [] then disabledOut
    else
      let v := selectFlagValue (tokenize cs)
      if v = [] then disabledOut
      else handleValue v openR openW

/-- Embeds `Jobserver::~Jobserver` (jobserver-posix.cc lines 99-109): run
`Clear()`, close each fd that is `≥ 0`, set both fds to `-1`.  Returns
the descriptors passed to `close(2)`, the final state, the alive flag
and the effects of the embedded `Clear()`. -/
def dtor (s : JState) (w : Nat → Int) : List Int × JState × Bool × FX :=
  let c := clear s w
  let closes := (if c.state.rfd ≥ 0 then [c.state.rfd] else []) ++
                (if c.state.wfd ≥ 0 then [c.state.wfd] else [])
  (closes, { c.state with rfd := -1, wfd := -1 }, c.alive, c.fx)

/-- The OS responses a client whose descriptors are both `-1` can
observe: a read on fd `-1` fails with EBADF (in particular it neither
succeeds nor reports would-block). -/
def opInvalidFd : Op → Prop
  | .acq ret errno => ret = -1 ∧ errno = EBADF
  | _ => True

/-- Modelled from the amended C5 wording (spec-side definition, to be
compared with the source-side `sscanf_dd`): the value begins, after
optional whitespace, with an optionally-signed digit run, immediately
followed by a comma, followed after optional whitespace by a second
optionally-signed digit run; arbitrary trailing characters follow. -/
def signShape (sg : List Char) : Prop := sg = [] ∨ sg = ['+'] ∨ sg = ['-']

/-- The structural shape characterizing when `sscanf_dd` assigns both
fields (see `signShape`). -/
def fdPairShape (v : List Char) : Prop :=
  ∃ ws1 sg1 d1 ws2 sg2 d2 rest : List Char,
    v = ws1 ++ sg1 ++ d1 ++ ',' :: (ws2 ++ sg2 ++ d2 ++ rest)
    ∧ (∀ c ∈ ws1, isspaceB c = true) ∧ signShape sg1
    ∧ d1 ≠ [] ∧ (∀ c ∈ d1, c.isDigit = true)
    ∧ (∀ c ∈ ws2, isspaceB c = true) ∧ signShape sg2
    ∧ d2 ≠ [] ∧ (∀ c ∈ d2, c.isDigit = true)

/-- C1: in any state with `held_count ≤ 0` or `channel_closed`, `Acquire()`
takes the implicit-token fast path: it sets `held_count = 1`, returns
success, and performs no read (in particular the first `Acquire()` after
successful initialization, `held_count = -1`, always succeeds regardless
of channel availability). -/
theorem acquire_implicit_fastpath (s : JState) (ret errno : Int)
    (h : s.token_count ≤ 0 ∨ s.jobserver_closed = true) :
    acquire s ret errno = (some ({ s with token_count := 1 }, true), FX.zero) := by
  unfold acquire
  rw [if_pos h]

/-- Witness for `acquire_implicit_fastpath` at the freshly initialized
state `held_count = -1` with a channel that would in fact block. -/
theorem acquire_implicit_fastpath_witness :
    acquire { token_count := -1, jobserver_closed := false,
              jobserver_fifo := false, rfd := 3, wfd := 4 } (-1) EAGAIN =
      (some ({ token_count := 1, jobserver_closed := false,
               jobserver_fifo := false, rfd := 3, wfd := 4 }, true), FX.zero) :=
  acquire_implicit_fastpath _ _ _ (by left; decide)

/-- C7: `Release()` in a state with negative `held_count` (the
initialized-but-not-yet-counted state `-1`) resets `held_count` to
exactly `0` and performs no write. -/
theorem release_negative_count_no_io (s : JState) (wret : Int)
    (h : s.token_count < 0) :
    release s wret = ({ s with token_count := 0 }, true, FX.zero) := by
  unfold release
  rw [if_pos h]

/-- Witness for `release_negative_count_no_io` at `held_count = -1`. -/
theorem release_negative_count_no_io_witness :
    release { token_count := -1, jobserver_closed := false,
              jobserver_fifo := false, rfd := 3, wfd := 4 } 1 =
      ({ token_count := 0, jobserver_closed := false,
         jobserver_fifo := false, rfd := 3, wfd := 4 }, true, FX.zero) :=
  release_negative_count_no_io _ _ (by decide)

/-- C9: when the non-blocking read returns zero bytes (end of file,
neither a byte nor an error), `Acquire()` returns failure, does not mark
the channel closed, emits no diagnostic, and leaves the whole state
unchanged; consequently any number of such calls repeats without ever
triggering the degrade-to-unlimited path. -/
theorem acquire_eof_no_state_change (s : JState) (errno : Int)
    (h1 : 1 ≤ s.token_count) (h2 : s.jobserver_closed = false) :
    acquire s 0 errno = (some (s, false), { reads := 1, writes := 0, warns := 0 })
    ∧ ∀ n : Nat, runOps s (List.replicate n (Op.acq 0 errno)) =
        (s, true, { reads := n, writes := 0, warns := 0 }) := by
  have hcond : ¬ (s.token_count ≤ 0 ∨ s.jobserver_closed = true) := by
    push_neg
    exact ⟨by omega, by simp [h2]⟩
  have hone : acquire s 0 errno =
      (some (s, false), { reads := 1, writes := 0, warns := 0 }) := by
    unfold acquire
    rw [if_neg hcond]
    norm_num
  refine ⟨hone, ?_⟩
  intro n
  induction n with
  | zero => simp [runOps, FX.zero]
  | succ k ih =>
    simp only [List.replicate_succ, runOps, step, hone, ih]
    simp [FX.add]
    omega

/-- Witness for `acquire_eof_no_state_change` at a held-one-token state. -/
theorem acquire_eof_no_state_change_witness :
    acquire { token_count := 1, jobserver_closed := false,
              jobserver_fifo := false, rfd := 3, wfd := 4 } 0 0 =
      (some ({ token_count := 1, jobserver_closed := false,
               jobserver_fifo := false, rfd := 3, wfd := 4 }, false),
       { reads := 1, writes := 0, warns := 0 })
    ∧ ∀ n : Nat,
        runOps { token_count := 1, jobserver_closed := false,
                 jobserver_fifo := false, rfd := 3, wfd := 4 }
          (List.replicate n (Op.acq 0 0)) =
        ({ token_count := 1, jobserver_closed := false,
           jobserver_fifo := false, rfd := 3, wfd := 4 }, true,
         { reads := n, writes := 0, warns := 0 }) :=
  acquire_eof_no_state_change _ _ (by decide) (by decide)

/-- C10: for the malformed non-fifo value `7abc` (and likewise `7`),
construction warns naming the value and leaves the client disabled
(`held_count = 0`, `Enabled()` false, no abort), but `sscanf` has
already overwritten `rfd_` with `7` while `wfd_` stays `-1`, and the
destructor then passes descriptor `7` to `close(2)`. -/
theorem malformed_single_int_fd_adopted :
    (ctor (some ("--jobserver-auth=7abc".toList)) 0 0).state.rfd = 7
    ∧ (ctor (some ("--jobserver-auth=7abc".toList)) 0 0).state.wfd = -1
    ∧ (ctor (some ("--jobserver-auth=7abc".toList)) 0 0).state.token_count = 0
    ∧ enabled (ctor (some ("--jobserver-auth=7abc".toList)) 0 0).state = false
    ∧ (ctor (some ("--jobserver-auth=7abc".toList)) 0 0).warnings = ["7abc".toList]
    ∧ (ctor (some ("--jobserver-auth=7abc".toList)) 0 0).fatal = false
    ∧ (dtor (ctor (some ("--jobserver-auth=7abc".toList)) 0 0).state (fun _ => 1)).1 = [7]
    ∧ (ctor (some ("--jobserver-auth=7".toList)) 0 0).state.rfd = 7
    ∧ (ctor (some ("--jobserver-auth=7".toList)) 0 0).state.wfd = -1
    ∧ (dtor (ctor (some ("--jobserver-auth=7".toList)) 0 0).state (fun _ => 1)).1 = [7] := by
  decide

/-- C4 counterexample: the FdPair value `5,-1` adopts exactly one valid
handle (read fd `5`; write fd `-1` invalid), a half-open inherited
pair, yet construction aborts fatally (`fatal = true`) and does not
mark `channel_closed`, contradicting the claim that a half-open pair
degrades gracefully and that the abort is reserved for neither handle
being valid. -/
theorem half_open_pair_aborts_cex :
    (ctor (some ("--jobserver-auth=5,-1".toList)) 0 0).fatal = true
    ∧ (ctor (some ("--jobserver-auth=5,-1".toList)) 0 0).state.rfd = 5
    ∧ (ctor (some ("--jobserver-auth=5,-1".toList)) 0 0).state.wfd = -1
    ∧ (ctor (some ("--jobserver-auth=5,-1".toList)) 0 0).state.jobserver_closed = false := by
  decide

/-- C5 counterexample: the non-fifo value `1,2xyz` carries trailing
characters after the second integer, which the claim calls malformed
(None plus a warning), yet construction emits no warning and adopts
FdPair(1, 2), initializing normally (`held_count = -1`, no abort). -/
theorem trailing_chars_accepted_cex :
    (ctor (some ("--jobserver-auth=1,2xyz".toList)) 0 0).warnings = []
    ∧ (ctor (some ("--jobserver-auth=1,2xyz".toList)) 0 0).state.rfd = 1
    ∧ (ctor (some ("--jobserver-auth=1,2xyz".toList)) 0 0).state.wfd = 2
    ∧ (ctor (some ("--jobserver-auth=1,2xyz".toList)) 0 0).state.token_count = -1
    ∧ (ctor (some ("--jobserver-auth=1,2xyz".toList)) 0 0).fatal = false := by
  decide

/-- C6 counterexample: in `--jobserver-auth= --jobserver-fds=7,8` both
words appear and the last `--jobserver-auth=` occurrence has the empty
value, so by the claim the empty value should win (feature disabled);
instead the code falls back to the `--jobserver-fds=` value and adopts
FdPair(7, 8). -/
theorem empty_auth_falls_back_cex :
    (ctor (some ("--jobserver-auth= --jobserver-fds=7,8".toList)) 0 0).state.rfd = 7
    ∧ (ctor (some ("--jobserver-auth= --jobserver-fds=7,8".toList)) 0 0).state.wfd = 8
    ∧ (ctor (some ("--jobserver-auth= --jobserver-fds=7,8".toList)) 0 0).state.token_count = -1
    ∧ (ctor (some ("--jobserver-auth= --jobserver-fds=7,8".toList)) 0 0).fatal = false := by
  decide

/-- C8 counterexample: on a client constructed with a disabled pool
address (`initJState`), the two-call sequence Acquire(); Acquire()
performs one read syscall (the second call reads on `rfd_ = -1`, which
the OS answers with EBADF), refuting the claim that every finite
sequence of calls performs zero read syscalls. -/
theorem disabled_client_read_cex :
    (runOps initJState [Op.acq (-1) 9, Op.acq (-1) 9]).2.2.reads = 1
    ∧ (runOps initJState [Op.acq (-1) 9, Op.acq (-1) 9]).2.2.writes = 0 := by
  decide

/-- Adding no effects on the left is the identity. -/
theorem FX.zero_add (b : FX) : FX.add FX.zero b = b := by
  cases b
  simp [FX.add, FX.zero]

/-- Adding no effects on the right is the identity. -/
theorem FX.add_zero (a : FX) : FX.add a FX.zero = a := by
  cases a
  simp [FX.add, FX.zero]

/-- Replacing `token_count_` by its own value changes nothing. -/
theorem jstate_eta (s : JState) (t : Int) (h : s.token_count = t) :
    { s with token_count := t } = s := by
  cases s
  simp_all

/-- Calling `Release()` with a negative count resets it to zero with no write. -/
theorem release_neg (s : JState) (wret : Int) (h : s.token_count < 0) :
    release s wret = ({ s with token_count := 0 }, true, FX.zero) := by
  unfold release
  rw [if_pos h]

/-- Calling `Release()` at count zero is the identity with no write. -/
theorem release_zero (s : JState) (wret : Int) (h : s.token_count = 0) :
    release s wret = (s, true, FX.zero) := by
  simp [release, h]

/-- Calling `Release()` at count one drops to zero and skips the write. -/
theorem release_one (s : JState) (wret : Int) (h : s.token_count = 1) :
    release s wret = ({ s with token_count := 0 }, true, FX.zero) := by
  simp [release, h]

/-- Calling `Release()` at count at least two on an open channel decrements and
writes one byte back (successfully, when the write returns 1). -/
theorem release_pos_write (s : JState) (h : 2 ≤ s.token_count)
    (hc : s.jobserver_closed = false) :
    release s 1 = ({ s with token_count := s.token_count - 1 }, true,
      { reads := 0, writes := 1, warns := 0 }) := by
  unfold release
  rw [if_neg (show ¬ s.token_count < 0 by omega)]
  rw [if_neg (show ¬ s.token_count = 0 by omega)]
  rw [if_neg (show ¬ (s.token_count - 1 = 0 ∨ s.jobserver_closed = true) by
    push_neg
    exact ⟨by omega, by simp [hc]⟩)]
  rw [if_pos rfl]

/-- Note `Release()` never changes any field but `token_count_`. -/
theorem release_fields (s : JState) (wret : Int) :
    (release s wret).1.jobserver_closed = s.jobserver_closed
    ∧ (release s wret).1.jobserver_fifo = s.jobserver_fifo
    ∧ (release s wret).1.rfd = s.rfd ∧ (release s wret).1.wfd = s.wfd := by
  unfold release
  split_ifs <;> simp

/-- On a closed channel `Release()` performs no write and cannot abort. -/
theorem release_closed (s : JState) (wret : Int) (h : s.jobserver_closed = true) :
    (release s wret).2.1 = true ∧ (release s wret).2.2 = FX.zero := by
  unfold release
  split_ifs <;> simp_all

/-- Calling `Clear()` at count zero performs no iteration, for any fuel. -/
theorem clearFuel_zero (fuel : Nat) (s : JState) (w : Nat → Int)
    (h : s.token_count = 0) :
    clearFuel fuel s w = { state := s, alive := true, fx := FX.zero, iters := 0 } := by
  cases fuel with
  | zero => simp [clearFuel]
  | succ k => simp [clearFuel, h]

/-- Draining lemma for the loop body: from count `n` on an open channel,
with every write succeeding, the loop runs exactly `n` iterations,
writes `n - 1` bytes, and ends at count zero. -/
theorem clearFuel_drain (n : Nat) : ∀ (fuel : Nat) (s : JState) (w : Nat → Int),
    (∀ i, w i = 1) → s.jobserver_closed = false → s.token_count = (n : Int) →
    n ≤ fuel →
    clearFuel fuel s w =
      { state := { s with token_count := 0 }, alive := true,
        fx := { reads := 0, writes := n - 1, warns := 0 }, iters := n } := by
  induction n with
  | zero =>
    intro fuel s w hw hc ht hf
    have h0 : s.token_count = 0 := by simpa using ht
    rw [clearFuel_zero fuel s w h0, jstate_eta s 0 h0]
    simp [FX.zero]
  | succ k ih =>
    intro fuel s w hw hc ht hf
    cases fuel with
    | zero => omega
    | succ f =>
      have hne : ¬ s.token_count = 0 := by omega
      cases k with
      | zero =>
        have h1 : s.token_count = 1 := by simpa using ht
        simp only [clearFuel, if_neg hne, hw 0, release_one s 1 h1]
        rw [clearFuel_zero f _ _ (by simp)]
        simp [FX.add, FX.zero]
      | succ j =>
        have h2 : 2 ≤ s.token_count := by omega
        simp only [clearFuel, if_neg hne, hw 0, release_pos_write s h2 hc]
        rw [ih f _ _ (fun i => hw (i + 1)) (by simp [hc]) (by simp; omega) (by omega)]
        rw [if_pos trivial]
        simp [FX.add]
        omega

/-- Calling `Clear()` from a nonnegative count `n` on an open channel with all
writes succeeding: exactly `n` iterations, `n - 1` bytes written back. -/
theorem clear_drain (n : Nat) (s : JState) (w : Nat → Int) (hw : ∀ i, w i = 1)
    (hc : s.jobserver_closed = false) (ht : s.token_count = (n : Int)) :
    clear s w =
      { state := { s with token_count := 0 }, alive := true,
        fx := { reads := 0, writes := n - 1, warns := 0 }, iters := n } :=
  clearFuel_drain n _ s w hw hc ht (by rw [ht]; simp)

/-- Calling `Clear()` at count zero is a complete no-op. -/
theorem clear_zero (s : JState) (w : Nat → Int) (h : s.token_count = 0) :
    clear s w = { state := s, alive := true, fx := FX.zero, iters := 0 } :=
  clearFuel_zero _ s w h

/-- Calling `Clear()` from a negative count: a single `Release()` iteration that
performs no write and resets the count to zero. -/
theorem clear_neg (s : JState) (w : Nat → Int) (h : s.token_count < 0) :
    clear s w =
      { state := { s with token_count := 0 }, alive := true,
        fx := FX.zero, iters := 1 } := by
  unfold clear
  have hab : s.token_count.natAbs = (s.token_count.natAbs - 1) + 1 := by omega
  rw [hab]
  have hne : ¬ s.token_count = 0 := by omega
  simp only [clearFuel, if_neg hne, release_neg s (w 0) h]
  rw [clearFuel_zero _ _ _ (by simp)]
  simp [FX.add, FX.zero]

/-- Calling `Acquire()` on an open channel holding at least one token, when the
read returns one byte: increment the count and succeed. -/
theorem acquire_read_byte (s : JState) (h : 1 ≤ s.token_count)
    (hc : s.jobserver_closed = false) :
    acquire s 1 0 = (some ({ s with token_count := s.token_count + 1 }, true),
      { reads := 1, writes := 0, warns := 0 }) := by
  unfold acquire
  rw [if_neg (show ¬ (s.token_count ≤ 0 ∨ s.jobserver_closed = true) by
    push_neg
    exact ⟨by omega, by simp [hc]⟩)]
  rw [if_neg (show ¬ ((1:Int) < 0 ∧ (0:Int) ≠ EAGAIN ∧ (0:Int) ≠ EWOULDBLOCK) by
    norm_num)]
  rw [if_pos (show (1:Int) > 0 by norm_num)]

/-- From a state already holding at least one token on an open channel,
`m` further `Acquire()` calls all succeed, each adding one token. -/
theorem runAcquires_pos (m : Nat) : ∀ s : JState, 1 ≤ s.token_count →
    s.jobserver_closed = false →
    runAcquires s m = ({ s with token_count := s.token_count + m }, true) := by
  induction m with
  | zero =>
    intro s h hc
    have he : ({ s with token_count := s.token_count + ((0:Nat) : Int) } : JState) = s := by
      cases s
      simp
    simp [runAcquires, he]
  | succ k ih =>
    intro s h hc
    simp only [runAcquires, acquire_read_byte s h hc]
    rw [ih _ (by simp; omega) (by simp [hc])]
    simp
    omega

/-- On a closed channel, `Acquire()` takes the fast path uncondition-
ally and performs no read. -/
theorem acquire_closed (s : JState) (ret errno : Int)
    (h : s.jobserver_closed = true) :
    acquire s ret errno = (some ({ s with token_count := 1 }, true), FX.zero) := by
  unfold acquire
  rw [if_pos (Or.inr h)]

/-- On a closed channel the clear loop performs no I/O, cannot abort,
and leaves the channel closed. -/
theorem clearFuel_closed (fuel : Nat) : ∀ (s : JState) (w : Nat → Int),
    s.jobserver_closed = true →
    (clearFuel fuel s w).state.jobserver_closed = true
    ∧ (clearFuel fuel s w).alive = true ∧ (clearFuel fuel s w).fx = FX.zero := by
  induction fuel with
  | zero =>
    intro s w h
    simp [clearFuel, h]
  | succ f ih =>
    intro s w h
    by_cases h0 : s.token_count = 0
    · simp [clearFuel, h0, h]
    · have hst : (release s (w 0)).1.jobserver_closed = true := by
        rw [(release_fields s (w 0)).1]
        exact h
      obtain ⟨ha, hz⟩ := release_closed s (w 0) h
      obtain ⟨c1, c2, c3⟩ := ih (release s (w 0)).1 (fun k => w (k + 1)) hst
      simp [clearFuel, if_neg h0, ha, hz, c1, c2, c3, FX.zero_add]

/-- Calling `Clear()` on a closed channel: no I/O, no abort, stays closed. -/
theorem clear_closed (s : JState) (w : Nat → Int) (h : s.jobserver_closed = true) :
    (clear s w).state.jobserver_closed = true ∧ (clear s w).alive = true
    ∧ (clear s w).fx = FX.zero :=
  clearFuel_closed _ s w h

/-- Any single operation on a closed channel performs no I/O, cannot
abort, and leaves the channel closed. -/
theorem step_closed (s : JState) (op : Op) (h : s.jobserver_closed = true) :
    (step s op).1.jobserver_closed = true ∧ (step s op).2.1 = true
    ∧ (step s op).2.2 = FX.zero := by
  cases op with
  | acq ret errno =>
    simp [step, acquire_closed s ret errno h, h, FX.zero]
  | rel wret =>
    obtain ⟨ha, hz⟩ := release_closed s wret h
    simp only [step]
    refine ⟨?_, ha, hz⟩
    rw [(release_fields s wret).1]
    exact h
  | clr w =>
    obtain ⟨c1, c2, c3⟩ := clear_closed s w h
    simp [step, c1, c2, c3]

/-- Any operation sequence on a closed channel performs no I/O at all,
cannot abort, and never resets the closed flag. -/
theorem runOps_closed (ops : List Op) : ∀ s : JState, s.jobserver_closed = true →
    (runOps s ops).1.jobserver_closed = true ∧ (runOps s ops).2.1 = true
    ∧ (runOps s ops).2.2 = FX.zero := by
  induction ops with
  | nil =>
    intro s h
    simp [runOps, h]
  | cons op ops ih =>
    intro s h
    obtain ⟨s1, a1, f1⟩ := step_closed s op h
    obtain ⟨r1, r2, r3⟩ := ih (step s op).1 s1
    simp [runOps, a1, f1, r1, r2, r3, FX.zero_add]

/-- C2: after `n ≥ 1` successful `Acquire()` calls from the freshly
initialized state (`held_count = -1`, channel open), the count is `n`;
`Clear()` with all writes succeeding then runs exactly `n` `Release()`
iterations (writing back `n - 1` tokens, the implicit one needing no
write) and leaves the count at `0`; a second `Clear()` immediately after
performs zero iterations and zero I/O, and `Clear()` on any state with
count `0` is a no-op with no I/O. -/
theorem clear_drains_all_tokens (s : JState) (n : Nat) (hn : 1 ≤ n)
    (ht : s.token_count = -1) (hc : s.jobserver_closed = false) :
    runAcquires s n = ({ s with token_count := (n : Int) }, true)
    ∧ clear { s with token_count := (n : Int) } (fun _ => 1) =
        { state := { s with token_count := 0 }, alive := true,
          fx := { reads := 0, writes := n - 1, warns := 0 }, iters := n }
    ∧ clear { s with token_count := 0 } (fun _ => 1) =
        { state := { s with token_count := 0 }, alive := true,
          fx := FX.zero, iters := 0 }
    ∧ ∀ (s0 : JState) (w0 : Nat → Int), s0.token_count = 0 →
        clear s0 w0 = { state := s0, alive := true, fx := FX.zero, iters := 0 } := by
  refine ⟨?_, ?_, ?_, ?_⟩
  · obtain ⟨m, rfl⟩ : ∃ m, n = m + 1 := ⟨n - 1, by omega⟩
    have hfast : acquire s 1 0 = (some ({ s with token_count := 1 }, true), FX.zero) := by
      unfold acquire
      rw [if_pos (Or.inl (by omega))]
    simp only [runAcquires, hfast]
    rw [runAcquires_pos m _ (by simp) (by simp [hc])]
    simp
    omega
  · exact clear_drain n _ _ (fun _ => rfl) (by simp [hc]) (by simp)
  · exact clear_zero _ _ (by simp)
  · intro s0 w0 h0
    exact clear_zero s0 w0 h0

/-- Witness for `clear_drains_all_tokens` with three acquired tokens. -/
theorem clear_drains_all_tokens_witness :
    runAcquires { token_count := -1, jobserver_closed := false,
                  jobserver_fifo := false, rfd := 3, wfd := 4 } 3 =
      ({ token_count := 3, jobserver_closed := false,
         jobserver_fifo := false, rfd := 3, wfd := 4 }, true)
    ∧ clear { token_count := 3, jobserver_closed := false,
              jobserver_fifo := false, rfd := 3, wfd := 4 } (fun _ => 1) =
        { state := { token_count := 0, jobserver_closed := false,
                     jobserver_fifo := false, rfd := 3, wfd := 4 }, alive := true,
          fx := { reads := 0, writes := 2, warns := 0 }, iters := 3 }
    ∧ clear { token_count := 0, jobserver_closed := false,
              jobserver_fifo := false, rfd := 3, wfd := 4 } (fun _ => 1) =
        { state := { token_count := 0, jobserver_closed := false,
                     jobserver_fifo := false, rfd := 3, wfd := 4 }, alive := true,
          fx := FX.zero, iters := 0 }
    ∧ ∀ (s0 : JState) (w0 : Nat → Int), s0.token_count = 0 →
        clear s0 w0 = { state := s0, alive := true, fx := FX.zero, iters := 0 } :=
  clear_drains_all_tokens
    { token_count := -1, jobserver_closed := false,
      jobserver_fifo := false, rfd := 3, wfd := 4 } 3
    (by decide) (by decide) (by decide)

/-- C3: a read error other than would-block on an open non-named
channel marks it closed, warns once, and fails this call; on a closed
channel every `Acquire()` succeeds unconditionally with no read; and no
operation sequence ever resets the closed flag or performs any further
I/O from a closed state. -/
theorem closed_channel_degrade_permanent (s : JState) (ret errno : Int)
    (hcnt : 1 ≤ s.token_count) (hcl : s.jobserver_closed = false)
    (hff : s.jobserver_fifo = false) (hret : ret < 0)
    (h1 : errno ≠ EAGAIN) (h2 : errno ≠ EWOULDBLOCK) :
    acquire s ret errno =
      (some ({ s with jobserver_closed := true }, false),
       { reads := 1, writes := 0, warns := 1 })
    ∧ (∀ (s2 : JState) (r e : Int), s2.jobserver_closed = true →
        acquire s2 r e = (some ({ s2 with token_count := 1 }, true), FX.zero))
    ∧ (∀ (s2 : JState) (ops : List Op), s2.jobserver_closed = true →
        (runOps s2 ops).1.jobserver_closed = true
        ∧ (runOps s2 ops).2.2 = FX.zero ∧ (runOps s2 ops).2.1 = true) := by
  refine ⟨?_, ?_, ?_⟩
  · unfold acquire
    rw [if_neg (show ¬ (s.token_count ≤ 0 ∨ s.jobserver_closed = true) by
      push_neg
      exact ⟨by omega, by simp [hcl]⟩)]
    rw [if_pos (show ret < 0 ∧ errno ≠ EAGAIN ∧ errno ≠ EWOULDBLOCK from ⟨hret, h1, h2⟩)]
    rw [if_neg (show ¬ s.jobserver_fifo = true by simp [hff])]
  · intro s2 r e h
    exact acquire_closed s2 r e h
  · intro s2 ops h
    obtain ⟨a, b, c⟩ := runOps_closed ops s2 h
    exact ⟨a, c, b⟩

/-- Witness for `closed_channel_degrade_permanent`: a held-one-token
open anonymous-pipe state hit by a read error with errno 5 (EIO). -/
theorem closed_channel_degrade_permanent_witness :
    acquire { token_count := 1, jobserver_closed := false,
              jobserver_fifo := false, rfd := 3, wfd := 4 } (-1) 5 =
      (some ({ token_count := 1, jobserver_closed := true,
               jobserver_fifo := false, rfd := 3, wfd := 4 }, false),
       { reads := 1, writes := 0, warns := 1 })
    ∧ (∀ (s2 : JState) (r e : Int), s2.jobserver_closed = true →
        acquire s2 r e = (some ({ s2 with token_count := 1 }, true), FX.zero))
    ∧ (∀ (s2 : JState) (ops : List Op), s2.jobserver_closed = true →
        (runOps s2 ops).1.jobserver_closed = true
        ∧ (runOps s2 ops).2.2 = FX.zero ∧ (runOps s2 ops).2.1 = true) :=
  closed_channel_degrade_permanent
    { token_count := 1, jobserver_closed := false,
      jobserver_fifo := false, rfd := 3, wfd := 4 } (-1) 5
    (by decide) (by decide) (by decide) (by decide) (by decide) (by decide)

/-- Calling `Release()` from a nonzero count strictly decreases the absolute
count, so the fuel `clear` supplies to `clearFuel` is exact. -/
theorem release_natAbs_lt (s : JState) (wret : Int) (h : ¬ s.token_count = 0) :
    (release s wret).1.token_count.natAbs < s.token_count.natAbs := by
  unfold release
  split_ifs <;> simp <;> omega

/-- Any two sufficient fuels give the clear loop the same result. -/
theorem clearFuel_congr (f1 : Nat) : ∀ (f2 : Nat) (s : JState) (w : Nat → Int),
    s.token_count.natAbs ≤ f1 → s.token_count.natAbs ≤ f2 →
    clearFuel f1 s w = clearFuel f2 s w := by
  induction f1 with
  | zero =>
    intro f2 s w ha hb
    have h0 : s.token_count = 0 := by
      have := Nat.le_zero.mp ha
      omega
    rw [clearFuel_zero 0 s w h0, clearFuel_zero f2 s w h0]
  | succ k ih =>
    intro f2 s w ha hb
    by_cases h0 : s.token_count = 0
    · rw [clearFuel_zero _ s w h0, clearFuel_zero f2 s w h0]
    · cases f2 with
      | zero =>
        exfalso
        have := Nat.le_zero.mp hb
        omega
      | succ m =>
        have hlt := release_natAbs_lt s (w 0) h0
        by_cases ha2 : (release s (w 0)).2.1 = true
        · simp only [clearFuel, if_neg h0]
          rw [ih m (release s (w 0)).1 (fun k => w (k + 1)) (by omega) (by omega)]
        · simp [clearFuel, if_neg h0, ha2]

/-- The exact while-loop unfolding of `Clear()` (showing the fuel in
`clear` is sufficient): one iteration runs `Release()` and recurses on
its result with the write oracle shifted, stopping when the count is
zero or the process aborted. -/
theorem clear_eq (s : JState) (w : Nat → Int) :
    clear s w =
      if s.token_count = 0 then
        { state := s, alive := true, fx := FX.zero, iters := 0 }
      else if (release s (w 0)).2.1 = true then
        { state := (clear (release s (w 0)).1 (fun k => w (k + 1))).state,
          alive := (clear (release s (w 0)).1 (fun k => w (k + 1))).alive,
          fx := (release s (w 0)).2.2.add
            (clear (release s (w 0)).1 (fun k => w (k + 1))).fx,
          iters := (clear (release s (w 0)).1 (fun k => w (k + 1))).iters + 1 }
      else
        { state := (release s (w 0)).1, alive := false,
          fx := (release s (w 0)).2.2, iters := 1 } := by
  by_cases h0 : s.token_count = 0
  · rw [if_pos h0]
    exact clear_zero s w h0
  · rw [if_neg h0]
    unfold clear
    have hab : s.token_count.natAbs = (s.token_count.natAbs - 1) + 1 := by
      have := Int.natAbs_pos.mpr h0
      omega
    rw [hab]
    simp only [clearFuel, if_neg h0]
    have hlt := release_natAbs_lt s (w 0) h0
    rw [clearFuel_congr (s.token_count.natAbs - 1)
      ((release s (w 0)).1.token_count.natAbs) (release s (w 0)).1
      (fun k => w (k + 1)) (by omega) (le_refl _)]

/-- Calling `Release()` from any count at most one ends at count zero with no
write and no abort. -/
theorem release_le_one (s : JState) (wret : Int) (h : s.token_count ≤ 1) :
    release s wret = ({ s with token_count := 0 }, true, FX.zero) := by
  rcases lt_trichotomy s.token_count 0 with h0 | h0 | h0
  · exact release_neg s wret h0
  · rw [jstate_eta s 0 h0]
    exact release_zero s wret h0
  · have h1 : s.token_count = 1 := by omega
    exact release_one s wret h1

/-- Calling `Clear()` from count one: a single iteration, no write. -/
theorem clear_one (s : JState) (w : Nat → Int) (h : s.token_count = 1) :
    clear s w =
      { state := { s with token_count := 0 }, alive := true,
        fx := FX.zero, iters := 1 } := by
  unfold clear
  rw [show s.token_count.natAbs = 1 by omega]
  have hne : ¬ s.token_count = 0 := by omega
  simp only [clearFuel, if_neg hne, release_one s (w 0) h]
  simp [clearFuel, FX.add, FX.zero]

/-- Calling `Clear()` from any count at most one on an open channel: at most
one iteration, no I/O, no abort, count ends at zero. -/
theorem clear_le_one (s : JState) (w : Nat → Int) (h : s.token_count ≤ 1)
    (hc : s.jobserver_closed = false) :
    ∃ its, its ≤ 1 ∧ clear s w =
      { state := { s with token_count := 0 }, alive := true,
        fx := FX.zero, iters := its } := by
  rcases lt_trichotomy s.token_count 0 with h0 | h0 | h0
  · exact ⟨1, le_refl 1, clear_neg s w h0⟩
  · refine ⟨0, by norm_num, ?_⟩
    rw [jstate_eta s 0 h0]
    exact clear_zero s w h0
  · have h1 : s.token_count = 1 := by omega
    exact ⟨1, le_refl 1, clear_one s w h1⟩

/-- Invariant run for a client whose descriptors are invalid: with the
OS answering every reached read with EBADF, any operation sequence from
an open non-fifo state holding at most one counted token performs no
write, at most one read, and never aborts. -/
theorem runOps_invalid_fd (ops : List Op) : ∀ s : JState,
    (∀ op ∈ ops, opInvalidFd op) → s.jobserver_fifo = false →
    s.token_count ≤ 1 → s.jobserver_closed = false →
    (runOps s ops).2.2.writes = 0 ∧ (runOps s ops).2.2.reads ≤ 1
    ∧ (runOps s ops).2.1 = true := by
  induction ops with
  | nil =>
    intro s hops hf ht hc
    simp [runOps, FX.zero]
  | cons op ops ih =>
    intro s hops hf ht hc
    have hops' : ∀ o ∈ ops, opInvalidFd o :=
      fun o ho => hops o (List.mem_cons_of_mem _ ho)
    cases op with
    | acq ret errno =>
      obtain ⟨hr, he⟩ := hops (Op.acq ret errno) (List.mem_cons_self _ _)
      subst hr
      subst he
      by_cases hle : s.token_count ≤ 0
      · have hacq : acquire s (-1) EBADF =
            (some ({ s with token_count := 1 }, true), FX.zero) := by
          unfold acquire
          rw [if_pos (Or.inl hle)]
        have hstep : step s (Op.acq (-1) EBADF) =
            ({ s with token_count := 1 }, true, FX.zero) := by
          simp [step, hacq]
        obtain ⟨w1, r1, a1⟩ := ih { s with token_count := 1 } hops'
          (by simp [hf]) (by simp) (by simp [hc])
        refine ⟨?_, ?_, ?_⟩
        · simp [runOps, hstep, FX.zero_add, w1]
        · simp [runOps, hstep, FX.zero_add]
          exact r1
        · simp [runOps, hstep, a1]
      · have hacq : acquire s (-1) EBADF =
            (some ({ s with jobserver_closed := true }, false),
             { reads := 1, writes := 0, warns := 1 }) := by
          unfold acquire
          rw [if_neg (show ¬ (s.token_count ≤ 0 ∨ s.jobserver_closed = true) by
            push_neg
            exact ⟨by omega, by simp [hc]⟩)]
          rw [if_pos (show (-1:Int) < 0 ∧ EBADF ≠ EAGAIN ∧ EBADF ≠ EWOULDBLOCK by
            refine ⟨by norm_num, by decide, by decide⟩)]
          rw [if_neg (show ¬ s.jobserver_fifo = true by simp [hf])]
        have hstep : step s (Op.acq (-1) EBADF) =
            ({ s with jobserver_closed := true }, true,
             { reads := 1, writes := 0, warns := 1 }) := by
          simp [step, hacq]
        obtain ⟨c1, c2, c3⟩ := runOps_closed ops { s with jobserver_closed := true }
          (by simp)
        refine ⟨?_, ?_, ?_⟩
        · simp [runOps, hstep, c3, FX.add, FX.zero]
        · simp [runOps, hstep, c3, FX.add, FX.zero]
        · simp [runOps, hstep, c2]
    | rel wret =>
      have hstep : step s (Op.rel wret) =
          ({ s with token_count := 0 }, true, FX.zero) := by
        simp [step, release_le_one s wret ht]
      obtain ⟨w1, r1, a1⟩ := ih { s with token_count := 0 } hops'
        (by simp [hf]) (by simp) (by simp [hc])
      refine ⟨?_, ?_, ?_⟩
      · simp [runOps, hstep, FX.zero_add, w1]
      · simp [runOps, hstep, FX.zero_add]
        exact r1
      · simp [runOps, hstep, a1]
    | clr w =>
      obtain ⟨its, hits, hclr⟩ := clear_le_one s w ht hc
      have hstep : step s (Op.clr w) =
          ({ s with token_count := 0 }, true, FX.zero) := by
        simp [step, hclr]
      obtain ⟨w1, r1, a1⟩ := ih { s with token_count := 0 } hops'
        (by simp [hf]) (by simp) (by simp [hc])
      refine ⟨?_, ?_, ?_⟩
      · simp [runOps, hstep, FX.zero_add, w1]
      · simp [runOps, hstep, FX.zero_add]
        exact r1
      · simp [runOps, hstep, a1]

/-- C8 (amended): on a client constructed with a disabled pool address
(count 0, both descriptors invalid, channel open), any finite sequence
of Acquire/Release/Clear calls — with the OS answering every reached
read on the invalid descriptor with EBADF — performs zero write
syscalls and at most one read syscall (the first Acquire issued while a
token is counted as held performs one read, which marks the channel
closed, after which no I/O ever happens again), and never aborts. -/
theorem disabled_client_io_bound (ops : List Op)
    (h : ∀ op ∈ ops, opInvalidFd op) :
    (runOps initJState ops).2.2.writes = 0
    ∧ (runOps initJState ops).2.2.reads ≤ 1
    ∧ (runOps initJState ops).2.1 = true :=
  runOps_invalid_fd ops initJState h rfl (by norm_num [initJState]) rfl

/-- Witness for `disabled_client_io_bound` on a five-call sequence. -/
theorem disabled_client_io_bound_witness :
    (runOps initJState [Op.acq (-1) 9, Op.rel 1, Op.clr (fun _ => 1),
        Op.acq (-1) 9, Op.acq (-1) 9]).2.2.writes = 0
    ∧ (runOps initJState [Op.acq (-1) 9, Op.rel 1, Op.clr (fun _ => 1),
        Op.acq (-1) 9, Op.acq (-1) 9]).2.2.reads ≤ 1
    ∧ (runOps initJState [Op.acq (-1) 9, Op.rel 1, Op.clr (fun _ => 1),
        Op.acq (-1) 9, Op.acq (-1) 9]).2.1 = true :=
  disabled_client_io_bound _ (by
    intro op hop
    simp only [List.mem_cons, List.not_mem_nil, or_false] at hop
    rcases hop with h | h | h | h | h <;> subst h <;> simp [opInvalidFd, EBADF])

/-- C4 (amended): adopting an FdPair whose handles are not both valid:
if either handle is exactly `-1` the process aborts fatally (this
includes the half-open case with one valid handle and `-1` as the
other); only when neither handle is `-1` (both-invalid or half-open
with an invalid value other than `-1`) does the client degrade
gracefully, marking the channel closed and continuing initialized
(`held_count = -1`) without aborting. -/
theorem adopt_invalid_pair_outcomes (v : List Char) (r w oR oW : Int)
    (hs : sscanf_dd v = ScanResult.two r w)
    (hf : startsWith FIFO_KEY v = false)
    (hno : ¬ (r ≥ 0 ∧ w ≥ 0)) :
    handleValue v oR oW = finishInit { initJState with rfd := r, wfd := w }
    ∧ ((r = -1 ∨ w = -1) → (handleValue v oR oW).fatal = true)
    ∧ (r ≠ -1 → w ≠ -1 →
        (handleValue v oR oW).fatal = false
        ∧ (handleValue v oR oW).state.jobserver_closed = true
        ∧ (handleValue v oR oW).state.token_count = -1
        ∧ (handleValue v oR oW).warnings = []) := by
  have hh : handleValue v oR oW = finishInit { initJState with rfd := r, wfd := w } := by
    unfold handleValue
    rw [if_neg (by simp [hf])]
    rw [hs]
  refine ⟨hh, ?_, ?_⟩
  · intro hor
    rw [hh]
    unfold finishInit
    rw [if_neg (by simpa using hno)]
    rw [if_pos (by simpa using hor)]
  · intro hr hw
    rw [hh]
    unfold finishInit
    rw [if_neg (by simpa using hno)]
    rw [if_neg (by simp [hr, hw])]
    simp [initJState]

/-- Witness for `adopt_invalid_pair_outcomes` at the pair value `5,-2`:
one valid handle, the invalid one not `-1`, hence graceful degrade. -/
theorem adopt_invalid_pair_outcomes_witness :
    handleValue ("5,-2".toList) 0 0 = finishInit { initJState with rfd := 5, wfd := -2 }
    ∧ (((5:Int) = -1 ∨ (-2:Int) = -1) → (handleValue ("5,-2".toList) 0 0).fatal = true)
    ∧ ((5:Int) ≠ -1 → (-2:Int) ≠ -1 →
        (handleValue ("5,-2".toList) 0 0).fatal = false
        ∧ (handleValue ("5,-2".toList) 0 0).state.jobserver_closed = true
        ∧ (handleValue ("5,-2".toList) 0 0).state.token_count = -1
        ∧ (handleValue ("5,-2".toList) 0 0).warnings = []) :=
  adopt_invalid_pair_outcomes _ 5 (-2) 0 0 (by decide) (by decide) (by decide)

/-- The flag-scan fold with any accumulator returns the value of the
last word starting with the key, or the accumulator if none does. -/
theorem lastFlagValue_aux (key : List Char) (ws : List (List Char)) :
    ∀ acc : List Char,
    ws.foldl (fun a x => if startsWith key x then x.drop key.length else a) acc =
      match (ws.filter (fun x => startsWith key x)).getLast? with
      | some x => x.drop key.length
      | none => acc := by
  induction ws using List.reverseRecOn with
  | nil =>
    intro acc
    rfl
  | append_singleton ws w ih =>
    intro acc
    rw [List.foldl_append, List.filter_append]
    simp only [List.foldl_cons, List.foldl_nil, List.filter_cons, List.filter_nil]
    by_cases hw : startsWith key w
    · rw [if_pos hw, if_pos hw]
      rw [List.getLast?_concat]
    · rw [if_neg hw, if_neg hw]
      rw [List.append_nil]
      exact ih acc

/-- Fact: `lastFlagValue` equals the value of the last word carrying the key. -/
theorem lastFlagValue_eq (key : List Char) (ws : List (List Char)) :
    lastFlagValue key ws =
      match (ws.filter (fun x => startsWith key x)).getLast? with
      | some x => x.drop key.length
      | none => [] :=
  lastFlagValue_aux key ws []

/-- C6 (amended): when the MAKEFLAGS words contain `--jobserver-auth=`
occurrences, the value used is that of the last such occurrence —
regardless of the position or presence of any `--jobserver-fds=` words —
provided that value is non-empty; when the auth scan yields the empty
value (no auth word, or the last auth occurrence has an empty value),
the value of the last `--jobserver-fds=` occurrence is used instead. -/
theorem last_auth_occurrence_wins (cs : List Char) (hcs : ¬ cs = []) (oR oW : Int) :
    (∀ w : List Char,
      ((tokenize cs).filter (fun x => startsWith AUTH_KEY x)).getLast? = some w →
      ¬ w.drop AUTH_KEY.length = [] →
      ctor (some cs) oR oW = handleValue (w.drop AUTH_KEY.length) oR oW)
    ∧ (lastFlagValue AUTH_KEY (tokenize cs) = [] →
      ∀ w2 : List Char,
      ((tokenize cs).filter (fun x => startsWith FDS_KEY x)).getLast? = some w2 →
      ¬ w2.drop FDS_KEY.length = [] →
      ctor (some cs) oR oW = handleValue (w2.drop FDS_KEY.length) oR oW) := by
  constructor
  · intro w hlast hne
    have hv : lastFlagValue AUTH_KEY (tokenize cs) = w.drop AUTH_KEY.length := by
      rw [lastFlagValue_eq, hlast]
    simp only [ctor]
    rw [if_neg hcs]
    simp only [selectFlagValue, lastFlagValue]
    rw [← lastFlagValue]
    rw [hv, if_neg hne, if_neg hne]
  · intro ha w2 hlast2 hne2
    have hv2 : lastFlagValue FDS_KEY (tokenize cs) = w2.drop FDS_KEY.length := by
      rw [lastFlagValue_eq, hlast2]
    simp only [ctor]
    rw [if_neg hcs]
    simp only [selectFlagValue, lastFlagValue]
    rw [← lastFlagValue, ← lastFlagValue]
    rw [ha, if_pos rfl, hv2, if_neg hne2]

/-- Witness for `last_auth_occurrence_wins`: two auth words and one fds
word; the later auth occurrence supplies the value. -/
theorem last_auth_occurrence_wins_witness :
    ctor (some ("--jobserver-auth=1,2 --jobserver-fds=3,4 --jobserver-auth=5,6".toList)) 0 0 =
      handleValue (("--jobserver-auth=5,6".toList).drop AUTH_KEY.length) 0 0 :=
  (last_auth_occurrence_wins
    ("--jobserver-auth=1,2 --jobserver-fds=3,4 --jobserver-auth=5,6".toList)
    (by decide) 0 0).1 ("--jobserver-auth=5,6".toList) (by decide) (by decide)

/-- Digits are not whitespace. -/
theorem digit_not_space (c : Char) (h : c.isDigit = true) : isspaceB c = false := by
  cases hs : isspaceB c with
  | false => rfl
  | true =>
    exfalso
    unfold isspaceB at hs
    simp only [Bool.or_eq_true, decide_eq_true_eq] at hs
    rcases hs with ((((h1 | h1) | h1) | h1) | h1) | h1 <;> subst h1 <;>
      exact absurd h (by decide)

/-- Digits are not signs and not the comma. -/
theorem digit_not_sign (c : Char) (h : c.isDigit = true) :
    ¬ c = '-' ∧ ¬ c = '+' ∧ ¬ c = ',' := by
  refine ⟨?_, ?_, ?_⟩ <;> intro he <;> subst he <;> exact absurd h (by decide)

/-- Dropping while a predicate holds skips a block it holds on. -/
theorem dropWhile_append_all (p : Char → Bool) (l1 l2 : List Char)
    (h : ∀ a ∈ l1, p a = true) :
    (l1 ++ l2).dropWhile p = l2.dropWhile p := by
  induction l1 with
  | nil => rfl
  | cons a l ih =>
    have ha := h a (List.mem_cons_self _ _)
    simp only [List.cons_append, List.dropWhile, ha]
    exact ih (fun x hx => h x (List.mem_cons_of_mem _ hx))

/-- Taking while a predicate holds keeps a block it holds on. -/
theorem takeWhile_append_all (p : Char → Bool) (l1 l2 : List Char)
    (h : ∀ a ∈ l1, p a = true) :
    (l1 ++ l2).takeWhile p = l1 ++ l2.takeWhile p := by
  induction l1 with
  | nil => rfl
  | cons a l ih =>
    have ha := h a (List.mem_cons_self _ _)
    simp only [List.cons_append, List.takeWhile, ha]
    exact congrArg (List.cons a) (ih (fun x hx => h x (List.mem_cons_of_mem _ hx)))

/-- dropWhile stops at a head the predicate rejects. -/
theorem dropWhile_cons_false (p : Char → Bool) (a : Char) (l : List Char)
    (h : p a = false) : (a :: l).dropWhile p = a :: l := by
  simp [List.dropWhile, h]

/-- takeWhile keeps a head the predicate accepts. -/
theorem takeWhile_cons_true (p : Char → Bool) (a : Char) (l : List Char)
    (h : p a = true) : (a :: l).takeWhile p = a :: l.takeWhile p := by
  simp [List.takeWhile, h]

/-- Every element of a takeWhile block satisfies the predicate. -/
theorem takeWhile_all (p : Char → Bool) : ∀ (l : List Char) (a : Char),
    a ∈ l.takeWhile p → p a = true := by
  intro l
  induction l with
  | nil =>
    intro a ha
    simp [List.takeWhile] at ha
  | cons b bs ih =>
    intro a ha
    cases hb : p b with
    | true =>
      rw [takeWhile_cons_true p b bs hb] at ha
      rcases List.mem_cons.mp ha with rfl | hm
      · exact hb
      · exact ih a hm
    | false =>
      rw [show (b :: bs).takeWhile p = [] by simp [List.takeWhile, hb]] at ha
      simp at ha

/-- Inversion of a successful digit-run scan. -/
theorem scanUInt_decomp {cs : List Char} {n : Nat} {rest : List Char}
    (h : scanUInt cs = some (n, rest)) :
    cs = cs.takeWhile Char.isDigit ++ rest ∧ ¬ cs.takeWhile Char.isDigit = []
    ∧ rest = cs.dropWhile Char.isDigit := by
  unfold scanUInt at h
  by_cases he : cs.takeWhile Char.isDigit = []
  · rw [if_pos he] at h
    cases h
  · rw [if_neg he] at h
    have hp := Option.some.inj h
    have hr : rest = cs.dropWhile Char.isDigit := by
      have := congrArg Prod.snd hp
      simpa using this.symm
    refine ⟨?_, he, hr⟩
    rw [hr]
    exact (List.takeWhile_append_dropWhile _ _).symm

/-- A digit-run scan on a nonempty digit block followed by anything
succeeds and stops at the first non-digit. -/
theorem scanUInt_app (d tail : List Char) (hd : ¬ d = [])
    (hdig : ∀ c ∈ d, c.isDigit = true) :
    scanUInt (d ++ tail) =
      some (digitsToNat (d ++ tail.takeWhile Char.isDigit),
            tail.dropWhile Char.isDigit) := by
  unfold scanUInt
  rw [takeWhile_append_all Char.isDigit d tail hdig,
      dropWhile_append_all Char.isDigit d tail hdig]
  rw [if_neg (by simp [hd])]

/-- A `%d` conversion succeeds on whitespace, an optional sign, and a
nonempty digit block, leaving the suffix after the consumed digits. -/
theorem scanInt_app (ws sg d tail : List Char)
    (hws : ∀ c ∈ ws, isspaceB c = true) (hsg : signShape sg)
    (hd : ¬ d = []) (hdig : ∀ c ∈ d, c.isDigit = true) :
    ∃ n : Int, scanInt (ws ++ sg ++ d ++ tail) =
      some (n, tail.dropWhile Char.isDigit) := by
  have hassoc : ws ++ sg ++ d ++ tail = ws ++ (sg ++ (d ++ tail)) := by
    simp [List.append_assoc]
  rw [hassoc]
  obtain ⟨c, d', rfl⟩ := List.exists_cons_of_ne_nil hd
  have hcd : c.isDigit = true := hdig c (List.mem_cons_self _ _)
  unfold scanInt
  rw [dropWhile_append_all isspaceB ws _ hws]
  rcases hsg with rfl | rfl | rfl
  · rw [List.nil_append, List.cons_append]
    rw [dropWhile_cons_false isspaceB c _ (digit_not_space c hcd)]
    dsimp only
    rw [if_neg (digit_not_sign c hcd).1, if_neg (digit_not_sign c hcd).2.1]
    rw [← List.cons_append]
    rw [scanUInt_app (c :: d') tail (by simp) hdig]
    exact ⟨_, rfl⟩
  · rw [List.singleton_append, List.cons_append]
    rw [dropWhile_cons_false isspaceB '+' _ (by decide)]
    dsimp only
    rw [if_neg (by decide), if_pos rfl]
    rw [← List.cons_append]
    rw [scanUInt_app (c :: d') tail (by simp) hdig]
    exact ⟨_, rfl⟩
  · rw [List.singleton_append, List.cons_append]
    rw [dropWhile_cons_false isspaceB '-' _ (by decide)]
    dsimp only
    rw [if_pos rfl]
    rw [← List.cons_append]
    rw [scanUInt_app (c :: d') tail (by simp) hdig]
    exact ⟨_, rfl⟩

/-- Inversion of a successful `%d` conversion: the input splits into
whitespace, an optional sign, a nonempty digit block, and the rest. -/
theorem scanInt_decomp {cs : List Char} {n : Int} {rest : List Char}
    (h : scanInt cs = some (n, rest)) :
    ∃ ws sg d : List Char, cs = ws ++ sg ++ d ++ rest
      ∧ (∀ c ∈ ws, isspaceB c = true) ∧ signShape sg
      ∧ ¬ d = [] ∧ (∀ c ∈ d, c.isDigit = true) := by
  have hsplit : cs = cs.takeWhile isspaceB ++ cs.dropWhile isspaceB :=
    (List.takeWhile_append_dropWhile _ _).symm
  have hws : ∀ c ∈ cs.takeWhile isspaceB, isspaceB c = true :=
    fun c hc => takeWhile_all isspaceB cs c hc
  unfold scanInt at h
  cases hdw : cs.dropWhile isspaceB with
  | nil =>
    rw [hdw] at h
    cases h
  | cons c ct =>
    rw [hdw] at h
    rw [hdw] at hsplit
    dsimp only at h
    by_cases hc1 : c = '-'
    · subst hc1
      rw [if_pos rfl] at h
      cases hsu : scanUInt ct with
      | none =>
        rw [hsu] at h
        simp at h
      | some p =>
        obtain ⟨m, r⟩ := p
        rw [hsu] at h
        simp only [Option.map_some'] at h
        have hr : rest = r := by
          have := congrArg Prod.snd (Option.some.inj h)
          simpa using this.symm
        obtain ⟨de, dne, _⟩ := scanUInt_decomp hsu
        have hdg : ∀ x ∈ ct.takeWhile Char.isDigit, x.isDigit = true :=
          fun x hx => takeWhile_all Char.isDigit ct x hx
        generalize hg : ct.takeWhile Char.isDigit = d0 at de dne hdg
        refine ⟨cs.takeWhile isspaceB, ['-'], d0, ?_, hws,
          Or.inr (Or.inr rfl), dne, hdg⟩
        rw [hr]
        calc cs = cs.takeWhile isspaceB ++ ('-' :: ct) := hsplit
          _ = cs.takeWhile isspaceB ++ ['-'] ++ d0 ++ r := by
              rw [de]
              simp [List.append_assoc]
    · by_cases hc2 : c = '+'
      · subst hc2
        rw [if_neg hc1, if_pos rfl] at h
        cases hsu : scanUInt ct with
        | none =>
          rw [hsu] at h
          simp at h
        | some p =>
          obtain ⟨m, r⟩ := p
          rw [hsu] at h
          simp only [Option.map_some'] at h
          have hr : rest = r := by
            have := congrArg Prod.snd (Option.some.inj h)
            simpa using this.symm
          obtain ⟨de, dne, _⟩ := scanUInt_decomp hsu
          have hdg : ∀ x ∈ ct.takeWhile Char.isDigit, x.isDigit = true :=
            fun x hx => takeWhile_all Char.isDigit ct x hx
          generalize hg : ct.takeWhile Char.isDigit = d0 at de dne hdg
          refine ⟨cs.takeWhile isspaceB, ['+'], d0, ?_, hws,
            Or.inr (Or.inl rfl), dne, hdg⟩
          rw [hr]
          calc cs = cs.takeWhile isspaceB ++ ('+' :: ct) := hsplit
            _ = cs.takeWhile isspaceB ++ ['+'] ++ d0 ++ r := by
                rw [de]
                simp [List.append_assoc]
      · rw [if_neg hc1, if_neg hc2] at h
        cases hsu : scanUInt (c :: ct) with
        | none =>
          rw [hsu] at h
          simp at h
        | some p =>
          obtain ⟨m, r⟩ := p
          rw [hsu] at h
          simp only [Option.map_some'] at h
          have hr : rest = r := by
            have := congrArg Prod.snd (Option.some.inj h)
            simpa using this.symm
          obtain ⟨de, dne, _⟩ := scanUInt_decomp hsu
          have hdg : ∀ x ∈ (c :: ct).takeWhile Char.isDigit, x.isDigit = true :=
            fun x hx => takeWhile_all Char.isDigit (c :: ct) x hx
          generalize hg : (c :: ct).takeWhile Char.isDigit = d0 at de dne hdg
          refine ⟨cs.takeWhile isspaceB, [], d0, ?_, hws,
            Or.inl rfl, dne, hdg⟩
          rw [hr]
          calc cs = cs.takeWhile isspaceB ++ (c :: ct) := hsplit
            _ = cs.takeWhile isspaceB ++ [] ++ d0 ++ r := by
                rw [de]
                simp [List.append_assoc]

/-- The `sscanf("%d,%d")` call assigns both fields exactly when the
value has the shape: optional whitespace, optionally-signed digit run,
an immediate comma, optional whitespace, optionally-signed digit run,
then arbitrary trailing characters. -/
theorem sscanf_two_iff (v : List Char) :
    (∃ r w, sscanf_dd v = ScanResult.two r w) ↔ fdPairShape v := by
  constructor
  · rintro ⟨r, w, h⟩
    unfold sscanf_dd at h
    cases h1 : scanInt v with
    | none =>
      rw [h1] at h
      cases h
    | some p =>
      obtain ⟨n1, rest⟩ := p
      rw [h1] at h
      dsimp only at h
      cases rest with
      | nil => cases h
      | cons c rest2 =>
        dsimp only at h
        by_cases hc : c = ','
        · subst hc
          rw [if_pos rfl] at h
          cases h2 : scanInt rest2 with
          | none =>
            rw [h2] at h
            cases h
          | some q =>
            obtain ⟨n2, restF⟩ := q
            rw [h2] at h
            obtain ⟨ws1, sg1, d1, e1, hws1, hsg1, hd1, hdg1⟩ := scanInt_decomp h1
            obtain ⟨ws2, sg2, d2, e2, hws2, hsg2, hd2, hdg2⟩ := scanInt_decomp h2
            refine ⟨ws1, sg1, d1, ws2, sg2, d2, restF, ?_, hws1, hsg1, hd1, hdg1,
              hws2, hsg2, hd2, hdg2⟩
            rw [e1, e2]
        · rw [if_neg hc] at h
          cases h
  · rintro ⟨ws1, sg1, d1, ws2, sg2, d2, rest, hv, hws1, hsg1, hd1, hdg1,
      hws2, hsg2, hd2, hdg2⟩
    obtain ⟨n1, h1⟩ := scanInt_app ws1 sg1 d1 (',' :: (ws2 ++ sg2 ++ d2 ++ rest))
      hws1 hsg1 hd1 hdg1
    rw [dropWhile_cons_false Char.isDigit ',' _ (by decide)] at h1
    obtain ⟨n2, h2⟩ := scanInt_app ws2 sg2 d2 rest hws2 hsg2 hd2 hdg2
    refine ⟨n1, n2, ?_⟩
    unfold sscanf_dd
    rw [hv, h1]
    dsimp only
    rw [if_pos rfl, h2]

/-- C5 (amended): for every nonempty flag value not beginning with
`fifo:`, construction adopts an FdPair exactly when the value begins
(after optional whitespace) with an optionally-signed decimal integer,
an immediate comma, and (after optional whitespace) a second
optionally-signed decimal integer — trailing characters after the
second integer are accepted and ignored; any other such value is
malformed and yields a non-fatal warning naming the value, leaving the
feature disabled (count 0, write handle invalid, not enabled). -/
theorem fd_value_scan_characterization (v : List Char) (oR oW : Int)
    (hf : startsWith FIFO_KEY v = false) :
    ((∃ r w, sscanf_dd v = ScanResult.two r w) ↔ fdPairShape v)
    ∧ (∀ r w, sscanf_dd v = ScanResult.two r w →
        handleValue v oR oW = finishInit { initJState with rfd := r, wfd := w })
    ∧ (¬ fdPairShape v →
        (handleValue v oR oW).warnings = [v]
        ∧ (handleValue v oR oW).state.token_count = 0
        ∧ (handleValue v oR oW).state.wfd = -1
        ∧ enabled (handleValue v oR oW).state = false
        ∧ (handleValue v oR oW).fatal = false) := by
  refine ⟨sscanf_two_iff v, ?_, ?_⟩
  · intro r w hs
    unfold handleValue
    rw [if_neg (by simp [hf]), hs]
  · intro hshape
    have hnot : ∀ r w, ¬ sscanf_dd v = ScanResult.two r w := by
      intro r w hcon
      exact hshape ((sscanf_two_iff v).mp ⟨r, w, hcon⟩)
    unfold handleValue
    rw [if_neg (by simp [hf])]
    cases hs : sscanf_dd v with
    | zero => simp [initJState, enabled]
    | one r => simp [initJState, enabled]
    | two r w => exact absurd hs (hnot r w)

/-- Witness for `fd_value_scan_characterization` at the value `18,66`. -/
theorem fd_value_scan_characterization_witness :
    ((∃ r w, sscanf_dd ("18,66".toList) = ScanResult.two r w) ↔
        fdPairShape ("18,66".toList))
    ∧ (∀ r w, sscanf_dd ("18,66".toList) = ScanResult.two r w →
        handleValue ("18,66".toList) 0 0 =
          finishInit { initJState with rfd := r, wfd := w })
    ∧ (¬ fdPairShape ("18,66".toList) →
        (handleValue ("18,66".toList) 0 0).warnings = ["18,66".toList]
        ∧ (handleValue ("18,66".toList) 0 0).state.token_count = 0
        ∧ (handleValue ("18,66".toList) 0 0).state.wfd = -1
        ∧ enabled (handleValue ("18,66".toList) 0 0).state = false
        ∧ (handleValue ("18,66".toList) 0 0).fatal = false) :=
  fd_value_scan_characterization ("18,66".toList) 0 0 (by decide)
